import Mathlib

/-!
Verification development for the TSN traffic web UI tool wrappers
(`tools/webui/iperf3_tool.py`, `tools/webui/sockperf_tool.py`, `app.py`).

Modelling conventions:
* Python dicts holding metric values are modelled as association lists
  (`Dict := List (String × Rat)`) so that key-set preservation is a
  provable property, with `dictSet` matching Python assignment semantics
  (overwrite when the key is present, append otherwise).
* Python floats/ints are modelled as exact rationals (`Rat`).
* The regular-expression searches of the source are modelled by
  executable maximal-munch matchers.  For every pattern appearing in the
  source (`(\d+\.?\d*)\s+([KMG]?bits/sec)` with IGNORECASE,
  `Total\s+(\d+)\s+messages`, `Summary:\s+Latency is\s+(\d+\.?\d*)\s+usec`,
  `<MIN> observation\s+=\s+(\d+\.?\d*)`, `percentile NN\.000\s+=\s+(\d+\.?\d*)`)
  maximal munch coincides with Python's leftmost backtracking search:
  every sub-pattern of the form `\d+\.?\d*`, `\d+` or `\s+` is followed
  either by the end of the pattern or by a token whose first character
  cannot be consumed by the repeated class (a `\s+` after digits, a
  literal starting with a non-space after `\s+`), so shrinking a greedy
  repetition can never turn a failing continuation into a success.
* External effects (process spawns, terminate signals, callback events)
  are returned as explicit lists alongside the state.
-/

namespace TsnSdk

/-! ## Dict model (Python dict of metric name to numeric value) -/

abbrev Dict : Type := List (String × Rat)

/-- Python `d[k]` read (our uses always read existing keys; absent keys
default to 0, which never happens on the states the code builds). -/
def dictGet (d : Dict) (k : String) : Rat :=
  match List.find? (fun e => e.1 == k) d with
  | some e => e.2
  | none => 0

/-- Python `d[k] = v`: overwrite in place when the key is present,
append otherwise. -/
def dictSet (d : Dict) (k : String) (v : Rat) : Dict :=
  if List.any d (fun e => e.1 == k) then
    List.map (fun e => if e.1 == k then (k, v) else e) d
  else
    d ++ [(k, v)]

/-- The key list of a dict, in insertion order. -/
def dictKeys (d : Dict) : List String :=
  List.map (fun e => e.1) d

theorem dictKeys_dictSet_of_mem (d : Dict) (k : String) (v : Rat)
    (h : k ∈ dictKeys d) : dictKeys (dictSet d k v) = dictKeys d := by
  unfold dictSet
  have hany : List.any d (fun e => e.1 == k) = true := by
    unfold dictKeys at h
    rcases List.mem_map.mp h with ⟨e, he, hek⟩
    exact List.any_eq_true.mpr ⟨e, he, by simp [hek]⟩
  rw [if_pos hany]
  unfold dictKeys
  rw [List.map_map]
  apply List.map_congr_left
  intro e _
  by_cases hek : e.1 = k
  · simp [hek]
  · simp [hek]

theorem find?_map_replace (d : Dict) (k k' : String) (v : Rat) (h : k' ≠ k) :
    List.find? (fun e => e.1 == k')
        (List.map (fun e => if e.1 == k then (k, v) else e) d) =
      List.find? (fun e => e.1 == k') d := by
  induction d with
  | nil => rfl
  | cons e rest ih =>
    simp only [List.map_cons]
    by_cases hek : (e.1 == k) = true
    · have h2 : ¬ ((k, v).1 == k') = true := by
        simp only [beq_iff_eq]
        exact fun hkk => h hkk.symm
      have h3 : ¬ (e.1 == k') = true := by
        simp only [beq_iff_eq]
        exact fun he => h (by rw [← he, beq_iff_eq.mp hek])
      rw [if_pos hek, List.find?_cons_of_neg (p := fun (e : String × Rat) => e.1 == k') _ h2,
        List.find?_cons_of_neg (p := fun (e : String × Rat) => e.1 == k') _ h3]
      exact ih
    · rw [if_neg hek]
      by_cases hk' : (e.1 == k') = true
      · rw [List.find?_cons_of_pos (p := fun (e : String × Rat) => e.1 == k') _ hk',
          List.find?_cons_of_pos (p := fun (e : String × Rat) => e.1 == k') _ hk']
      · rw [List.find?_cons_of_neg (p := fun (e : String × Rat) => e.1 == k') _ hk',
          List.find?_cons_of_neg (p := fun (e : String × Rat) => e.1 == k') _ hk']
        exact ih

theorem find?_append_none {α : Type} (p : α → Bool) (d l₂ : List α)
    (h : List.find? p d = none) :
    List.find? p (d ++ l₂) = List.find? p l₂ := by
  induction d with
  | nil => rfl
  | cons e rest ih =>
    rw [List.cons_append]
    by_cases hk : p e = true
    · rw [List.find?_cons_of_pos _ hk] at h
      exact absurd h (by simp)
    · rw [List.find?_cons_of_neg _ hk] at h
      rw [List.find?_cons_of_neg _ hk]
      exact ih h

theorem find?_append_found {α : Type} (p : α → Bool) (d l₂ : List α) (x : α)
    (hsome : List.find? p d = some x) :
    List.find? p (d ++ l₂) = some x := by
  induction d with
  | nil => simp at hsome
  | cons e rest ih =>
    rw [List.cons_append]
    by_cases hk : p e = true
    · rw [List.find?_cons_of_pos _ hk] at hsome
      rw [List.find?_cons_of_pos _ hk]
      exact hsome
    · rw [List.find?_cons_of_neg _ hk] at hsome
      rw [List.find?_cons_of_neg _ hk]
      exact ih hsome

theorem dictGet_dictSet_ne (d : Dict) (k k' : String) (v : Rat)
    (h : k' ≠ k) : dictGet (dictSet d k v) k' = dictGet d k' := by
  unfold dictGet dictSet
  by_cases hany : List.any d (fun e => e.1 == k) = true
  · rw [if_pos hany, find?_map_replace d k k' v h]
  · rw [if_neg hany]
    cases hfind : List.find? (fun e => e.1 == k') d with
    | some x =>
      rw [find?_append_found _ d _ x hfind]
    | none =>
      rw [find?_append_none _ d _ hfind]
      have h2 : ¬ ((k, v).1 == k') = true := by
        simp only [beq_iff_eq]
        exact fun hkk => h hkk.symm
      rw [List.find?_cons_of_neg (p := fun (e : String × Rat) => e.1 == k') _ h2, List.find?_nil]

theorem find?_map_replace_self (d : Dict) (k : String) (v : Rat)
    (hany : List.any d (fun e => e.1 == k) = true) :
    List.find? (fun e => e.1 == k)
        (List.map (fun e => if e.1 == k then (k, v) else e) d) = some (k, v) := by
  induction d with
  | nil => simp at hany
  | cons e rest ih =>
    simp only [List.map_cons]
    by_cases hek : (e.1 == k) = true
    · rw [if_pos hek]
      exact List.find?_cons_of_pos (p := fun (e : String × Rat) => e.1 == k) _ (by simp)
    · rw [if_neg hek, List.find?_cons_of_neg (p := fun (e : String × Rat) => e.1 == k) _ hek]
      apply ih
      simp only [List.any_cons] at hany
      rcases Bool.or_eq_true_iff.mp hany with hc | hc
      · exact absurd hc hek
      · exact hc

theorem dictGet_dictSet_self (d : Dict) (k : String) (v : Rat) :
    dictGet (dictSet d k v) k = v := by
  unfold dictGet dictSet
  by_cases hany : List.any d (fun e => e.1 == k) = true
  · rw [if_pos hany, find?_map_replace_self d k v hany]
  · rw [if_neg hany]
    have hnone : List.find? (fun e => e.1 == k) d = none := by
      rw [List.find?_eq_none]
      intro x hx hxk
      exact hany (List.any_eq_true.mpr ⟨x, hx, hxk⟩)
    rw [find?_append_none _ d _ hnone,
      List.find?_cons_of_pos (p := fun (e : String × Rat) => e.1 == k) _ (by simp)]

/-! ## Character classes and string helpers -/

/-- Python `\s` restricted to ASCII, as produced by the tools' output. -/
def isPySpace (c : Char) : Bool :=
  c = ' ' || c = '\t' || c = '\n' || c = '\r' || c = '\x0b' || c = '\x0c'

/-- Python `needle in hay` substring test. -/
def containsSub (needle : List Char) : List Char → Bool
  | [] => needle.isEmpty
  | c :: cs => List.isPrefixOf needle (c :: cs) || containsSub needle cs

/-- Digit string to natural number, as Python `int` on a `\d+` match. -/
def digitsToNat (cs : List Char) : Nat :=
  List.foldl (fun acc c => acc * 10 + (c.toNat - ('0').toNat)) 0 cs

/-- Python `float` on a string of shape `\d+\.?\d*`, as an exact rational. -/
def parseFloat (cs : List Char) : Rat :=
  match List.dropWhile Char.isDigit cs with
  | '.' :: fs =>
    (digitsToNat (List.takeWhile Char.isDigit cs) : Rat) +
      (digitsToNat fs : Rat) / ((10 : Rat) ^ fs.length)
  | _ => (digitsToNat (List.takeWhile Char.isDigit cs) : Rat)

/-! ## The iperf3 rate pattern `(\d+\.?\d*)\s+([KMG]?bits/sec)` (IGNORECASE) -/

/-- Greedy match of `\d+\.?\d*` at the head; returns (matched text, rest). -/
def matchNumAt (cs : List Char) : Option (List Char × List Char) :=
  match List.takeWhile Char.isDigit cs, List.dropWhile Char.isDigit cs with
  | [], _ => none
  | ds, c :: rest2 =>
    if c = '.' then
      some (ds ++ '.' :: List.takeWhile Char.isDigit rest2,
        List.dropWhile Char.isDigit rest2)
    else some (ds, c :: rest2)
  | ds, [] => some (ds, [])

/-- Case-insensitive literal match at the head; returns
(text as written in the input, rest). -/
def ciMatch (pat : List Char) (cs : List Char) : Option (List Char × List Char) :=
  match pat, cs with
  | [], cs => some ([], cs)
  | _ :: _, [] => none
  | p :: ps, c :: cs =>
    if c.toLower = p.toLower then
      match ciMatch ps cs with
      | some (txt, rest) => some (c :: txt, rest)
      | none => none
    else none

def bitsSecPat : List Char := ['b', 'i', 't', 's', '/', 's', 'e', 'c']

/-- Match `[KMG]?bits/sec` (IGNORECASE) at the head; returns
(matched text, rest).  The optional class is tried greedily as in
Python; if it consumed the head but the literal fails, the bare
alternative is retried at the same position. -/
def matchUnitAt : List Char → Option (List Char × List Char)
  | [] => none
  | c :: rest =>
    if c.toLower = 'k' || c.toLower = 'm' || c.toLower = 'g' then
      match ciMatch bitsSecPat rest with
      | some (txt, r) => some (c :: txt, r)
      | none =>
        match ciMatch bitsSecPat (c :: rest) with
        | some (txt, r) => some (txt, r)
        | none => none
    else
      match ciMatch bitsSecPat (c :: rest) with
      | some (txt, r) => some (txt, r)
      | none => none

/-- Match the whole rate pattern at the head; returns (group 1, group 2). -/
def matchRateAt (cs : List Char) : Option (List Char × List Char) :=
  match matchNumAt cs with
  | none => none
  | some (num, rest) =>
    match List.takeWhile isPySpace rest with
    | [] => none
    | _ =>
      match matchUnitAt (List.dropWhile isPySpace rest) with
      | some (unit, _) => some (num, unit)
      | none => none

/-- `re.search` of the rate pattern: leftmost match over start positions. -/
def findRate : List Char → Option (List Char × List Char)
  | [] => none
  | c :: cs =>
    match matchRateAt (c :: cs) with
    | some r => some r
    | none => findRate cs

/-! ## Token engine for the sockperf patterns

Each sockperf regex is a sequence of case-sensitive literals, `\s+`
runs and a single captured number (`(\d+\.?\d*)` or `(\d+)`). -/

inductive PTok where
  | lit (s : List Char)
  | ws
  | numCap
  | intCap
deriving DecidableEq

/-- Case-sensitive literal match at the head; returns the rest. -/
def litMatch (pat : List Char) (cs : List Char) : Option (List Char) :=
  match pat, cs with
  | [], cs => some cs
  | _ :: _, [] => none
  | p :: ps, c :: cs => if c = p then litMatch ps cs else none

/-- Match a token sequence at the head, returning the captured group
(the patterns in the source each have exactly one capture). -/
def matchToks : List PTok → List Char → Option (List Char)
  | [], _ => some []
  | PTok.lit l :: ts, cs =>
    match litMatch l cs with
    | some rest => matchToks ts rest
    | none => none
  | PTok.ws :: ts, cs =>
    match List.takeWhile isPySpace cs with
    | [] => none
    | _ => matchToks ts (List.dropWhile isPySpace cs)
  | PTok.numCap :: ts, cs =>
    match matchNumAt cs with
    | none => none
    | some (num, rest) =>
      match matchToks ts rest with
      | some _ => some num
      | none => none
  | PTok.intCap :: ts, cs =>
    match List.takeWhile Char.isDigit cs with
    | [] => none
    | ds =>
      match matchToks ts (List.dropWhile Char.isDigit cs) with
      | some _ => some ds
      | none => none

/-- `re.search` over start positions with a token pattern. -/
def searchToks (toks : List PTok) : List Char → Option (List Char)
  | [] => matchToks toks []
  | c :: cs =>
    match matchToks toks (c :: cs) with
    | some cap => some cap
    | none => searchToks toks cs

/-- `Total\s+(\d+)\s+messages` -/
def patTotalMessages : List PTok :=
  [PTok.lit ("Total").data, PTok.ws, PTok.intCap, PTok.ws, PTok.lit ("messages").data]

/-- `Summary:\s+Latency is\s+(\d+\.?\d*)\s+usec` -/
def patAvgLatency : List PTok :=
  [PTok.lit ("Summary:").data, PTok.ws, PTok.lit ("Latency is").data, PTok.ws,
    PTok.numCap, PTok.ws, PTok.lit ("usec").data]

/-- `<MIN> observation\s+=\s+(\d+\.?\d*)` -/
def patMinLatency : List PTok :=
  [PTok.lit ("<MIN> observation").data, PTok.ws, PTok.lit ("=").data, PTok.ws, PTok.numCap]

/-- `<MAX> observation\s+=\s+(\d+\.?\d*)` -/
def patMaxLatency : List PTok :=
  [PTok.lit ("<MAX> observation").data, PTok.ws, PTok.lit ("=").data, PTok.ws, PTok.numCap]

/-- `percentile 50\.000\s+=\s+(\d+\.?\d*)` -/
def patP50 : List PTok :=
  [PTok.lit ("percentile 50.000").data, PTok.ws, PTok.lit ("=").data, PTok.ws, PTok.numCap]

/-- `percentile 90\.000\s+=\s+(\d+\.?\d*)` -/
def patP90 : List PTok :=
  [PTok.lit ("percentile 90.000").data, PTok.ws, PTok.lit ("=").data, PTok.ws, PTok.numCap]

/-- `percentile 99\.000\s+=\s+(\d+\.?\d*)` -/
def patP99 : List PTok :=
  [PTok.lit ("percentile 99.000").data, PTok.ws, PTok.lit ("=").data, PTok.ws, PTok.numCap]

/-! ## Events and tool state -/

/-- The callback events published by the wrappers (`self._notify`) and
the app-level start broadcasts that follow an accepted start request. -/
inductive Ev where
  | started : Ev
  | progress (bandwidth : Rat) : Ev
  | testComplete (stats : Dict) : Ev
  | errorEv (msg : String) : Ev
  | multiProgress (currentSize : Nat) (pct : Rat) (currentIndex totalCount : Nat) : Ev
  | multiResult (r : Dict) : Ev
  | multiComplete (results : List Dict) : Ev
deriving DecidableEq

/-- Shared shape of `IPerf3Tool` / `SockPerfTool` mutable state:
`self.running`, `self.process` (the command of the live `Popen`,
`none` when absent) and `self.stats`. -/
structure ToolState where
  running : Bool
  process : Option (List String)
  stats : Dict
deriving DecidableEq

/-- `IPerf3Tool.__init__` stats dict. -/
def initIperfStats : Dict :=
  [ ("bandwidth_mbps", 0), ("retransmits", 0), ("packets_sent", 0),
    ("packets_received", 0), ("jitter_ms", 0), ("lost_packets", 0),
    ("lost_percent", 0) ]

def iperfKeys : List String :=
  [ "bandwidth_mbps", "retransmits", "packets_sent", "packets_received",
    "jitter_ms", "lost_packets", "lost_percent" ]

/-- `SockPerfTool.__init__` stats dict. -/
def initSockStats : Dict :=
  [ ("latency_avg_us", 0), ("latency_min_us", 0), ("latency_max_us", 0),
    ("latency_p50_us", 0), ("latency_p90_us", 0), ("latency_p99_us", 0),
    ("packets_sent", 0), ("packets_received", 0), ("packet_loss", 0) ]

def sockKeys : List String :=
  [ "latency_avg_us", "latency_min_us", "latency_max_us", "latency_p50_us",
    "latency_p90_us", "latency_p99_us", "packets_sent", "packets_received",
    "packet_loss" ]

def initIperf : ToolState := ⟨false, none, initIperfStats⟩

def initSock : ToolState := ⟨false, none, initSockStats⟩

/-! ## IPerf3Tool operations -/

/-- Command vector built by `IPerf3Tool.start_client`. -/
def iperfClientCmd (host : String) (port duration : Nat) (udp : Bool)
    (bandwidth : String) (parallel : Nat) : List String :=
  [ "stdbuf", "-oL", "iperf3", "-c", host, "-p", toString port,
    "-t", toString duration, "-P", toString parallel, "-i", "1" ] ++
    (if udp then ["-u", "-b", bandwidth] else [])

/-- `IPerf3Tool.start_client`: returns (return value, new state, commands
spawned as external processes by the accepted request). -/
def startClient (t : ToolState) (host : String) (port duration : Nat)
    (udp : Bool) (bandwidth : String) (parallel : Nat) :
    Bool × ToolState × List (List String) :=
  if t.running then (false, t, [])
  else
    (true, { t with running := true },
      [iperfClientCmd host port duration udp bandwidth parallel])

/-- `IPerf3Tool.start_server`. -/
def startServer (t : ToolState) (port : Nat) :
    Bool × ToolState × List (List String) :=
  if t.running then (false, t, [])
  else
    let cmd := ["iperf3", "-s", "-p", toString port, "-1"]
    (true, { t with running := true, process := some cmd }, [cmd])

/-- The Mbps conversion applied by `_parse_progress_line` to the two
captured groups: `value = float(group 1)`, `unit = group 2.lower()`,
then `gbits` sub-string means x1000, `kbits` means /1000, plain
passthrough otherwise. -/
def convertMbps (num unit : List Char) : Rat :=
  if containsSub ("gbits").data (List.map Char.toLower unit) then
    parseFloat num * 1000
  else if containsSub ("kbits").data (List.map Char.toLower unit) then
    parseFloat num / 1000
  else parseFloat num

/-- `IPerf3Tool._parse_progress_line`: on a rate match, convert to
Mbps, store it and publish a progress event; otherwise leave everything
unchanged and publish nothing.  The captured group of `(\d+\.?\d*)`
always parses as a float, so the enclosing `try/except` can only be a
no-op here. -/
def parseProgressLine (stats : Dict) (line : String) : Dict × List Ev :=
  match findRate line.data with
  | some (num, unit) =>
    (dictSet stats "bandwidth_mbps" (convertMbps num unit),
      [Ev.progress (convertMbps num unit)])
  | none => (stats, [])

/-- The guard in `IPerf3Tool._run_client` before `_parse_progress_line`:
`"sec" in line and ("Bytes" in line or "bits/sec" in line)`. -/
def clientLineGuard (line : String) : Bool :=
  containsSub ("sec").data line.data &&
    (containsSub ("Bytes").data line.data ||
      containsSub ("bits/sec").data line.data)

/-- One loop iteration of `IPerf3Tool._run_client`. -/
def runClientStep (acc : Dict × List Ev) (line : String) : Dict × List Ev :=
  if clientLineGuard line then
    match parseProgressLine acc.1 line with
    | (s, evs) => (s, acc.2 ++ evs)
  else acc

/-- `IPerf3Tool._run_client` on the process output `lines`.  When
`exc = some (j, m)` an exception interrupts the body after the first
`j` lines and the handler publishes an error event; otherwise the loop
drains the stream and publishes `test_complete` with the final stats. -/
def runClient (stats : Dict) (lines : List String)
    (exc : Option (Nat × String)) : Dict × List Ev :=
  match exc with
  | some (j, m) =>
    match List.foldl runClientStep (stats, []) (lines.take j) with
    | (s, evs) => (s, evs ++ [Ev.errorEv m])
  | none =>
    match List.foldl runClientStep (stats, []) lines with
    | (s, evs) => (s, evs ++ [Ev.testComplete s])

/-- One accepted client session as observed by a subscriber attached
before the start: the app broadcasts the start notification
(`iperf_started`) and the runner publishes the rest. -/
def clientSessionTrace (stats : Dict) (lines : List String)
    (exc : Option (Nat × String)) : List Ev :=
  Ev.started :: (runClient stats lines exc).2

/-- `stop` (identical in both wrappers): clear `running`; when a process
handle is live, terminate it (grace period, then kill) and clear it. -/
def stopTool (t : ToolState) : ToolState × List (List String) :=
  let t1 : ToolState := { t with running := false }
  match t1.process with
  | some p => ({ t1 with process := none }, [p])
  | none => (t1, [])

/-- `get_stats` returns a copy of the stats dict. -/
def getStats (t : ToolState) : Dict := t.stats

/-! ## SockPerfTool operations -/

/-- Command vector built by `SockPerfTool.start_ping_pong` (and per
phase by `_run_multi_size_test`). -/
def pingPongCmd (host : String) (port duration msgSize : Nat) : List String :=
  [ "sockperf", "ping-pong", "-i", host, "-p", toString port,
    "-t", toString duration, "--msg-size", toString msgSize ]

/-- Command vector built by `SockPerfTool.start_under_load`. -/
def underLoadCmd (host : String) (port duration msgSize mps : Nat) : List String :=
  [ "sockperf", "under-load", "-i", host, "-p", toString port,
    "-t", toString duration, "--msg-size", toString msgSize,
    "--mps", toString mps ]

/-- `SockPerfTool.start_ping_pong`. -/
def startPingPong (t : ToolState) (host : String) (port duration msgSize : Nat) :
    Bool × ToolState × List (List String) :=
  if t.running then (false, t, [])
  else
    (true, { t with running := true }, [pingPongCmd host port duration msgSize])

/-- `SockPerfTool.start_under_load`. -/
def startUnderLoad (t : ToolState) (host : String)
    (port duration msgSize mps : Nat) :
    Bool × ToolState × List (List String) :=
  if t.running then (false, t, [])
  else
    (true, { t with running := true }, [underLoadCmd host port duration msgSize mps])

/-- `SockPerfTool.start_multi_size_test`: spawns only the runner thread;
the per-phase processes are spawned later by `_run_multi_size_test`. -/
def startMultiSize (t : ToolState) (host : String) (port duration : Nat)
    (msgSizes : List Nat) : Bool × ToolState × List (List String) :=
  if t.running then (false, t, [])
  else (true, { t with running := true }, [])

/-- `SockPerfTool._parse_line`: the two independent substring-guarded
clauses updating the sent/received counters.  No event is published. -/
def parseLine (stats : Dict) (line : String) : Dict :=
  let s1 :=
    if containsSub ("messages sent").data line.data then
      match searchToks patTotalMessages line.data with
      | some ds => dictSet stats "packets_sent" (digitsToNat ds : Rat)
      | none => stats
    else stats
  if containsSub ("messages received").data line.data then
    match searchToks patTotalMessages line.data with
    | some ds => dictSet s1 "packets_received" (digitsToNat ds : Rat)
    | none => s1
  else s1

/-- One conditional field update of `_parse_summary` / `_parse_size_test`. -/
def setIfMatch (stats : Dict) (key : String) (toks : List PTok)
    (out : List Char) : Dict :=
  match searchToks toks out with
  | some cap => dictSet stats key (parseFloat cap)
  | none => stats

/-- The six latency extractions shared verbatim by
`SockPerfTool._parse_summary` and `SockPerfTool._parse_size_test`:
average, min, max, p50, p90, p99, applied in the source's order. -/
def latencySix (d : Dict) (out : List Char) : Dict :=
  setIfMatch (setIfMatch (setIfMatch (setIfMatch (setIfMatch
    (setIfMatch d "latency_avg_us" patAvgLatency out)
      "latency_min_us" patMinLatency out)
      "latency_max_us" patMaxLatency out)
      "latency_p50_us" patP50 out)
      "latency_p90_us" patP90 out)
      "latency_p99_us" patP99 out

/-- `SockPerfTool._parse_summary`: the six latency extractions followed
by the guarded packet-loss computation
(`lost = sent - received; loss = lost / sent * 100` when `sent > 0`). -/
def parseSummary (stats : Dict) (output : String) : Dict :=
  if dictGet (latencySix stats output.data) "packets_sent" > 0 then
    dictSet (latencySix stats output.data) "packet_loss"
      ((dictGet (latencySix stats output.data) "packets_sent" -
          dictGet (latencySix stats output.data) "packets_received") /
        dictGet (latencySix stats output.data) "packets_sent" * 100)
  else latencySix stats output.data

/-- `SockPerfTool._run_test` on the process output `lines`: parse each
line as it arrives, then parse the joined output as the summary, then
publish `test_complete`.  `exc` models an exception interrupting the
body after the first `j` lines, handled by publishing an error event. -/
def runTest (stats : Dict) (lines : List String)
    (exc : Option (Nat × String)) : Dict × List Ev :=
  match exc with
  | some (j, m) =>
    (List.foldl parseLine stats (lines.take j), [Ev.errorEv m])
  | none =>
    let s1 := List.foldl parseLine stats lines
    let s2 := parseSummary s1 (String.join lines)
    (s2, [Ev.testComplete s2])

/-- One accepted ping-pong / under-load session as observed by a
subscriber attached before the start. -/
def sockSessionTrace (stats : Dict) (lines : List String)
    (exc : Option (Nat × String)) : List Ev :=
  Ev.started :: (runTest stats lines exc).2

/-- `SockPerfTool._parse_size_test`: fresh per-phase dict tagged with
the message size, then the six latency extractions. -/
def parseSizeTest (output : String) (msgSize : Nat) : Dict :=
  latencySix
    [ ("msg_size", (msgSize : Rat)), ("latency_avg_us", 0), ("latency_min_us", 0),
      ("latency_max_us", 0), ("latency_p50_us", 0), ("latency_p90_us", 0),
      ("latency_p99_us", 0) ]
    output.data

/-- Loop of `SockPerfTool._run_multi_size_test`.  `outputs i` is the
full output of the phase at index `i`; `runningAt i` is the value of
`self.running` read at the top of iteration `i` (cleared externally by
`stop`).  Returns (accumulated results, events, spawned commands). -/
def runMultiAux (host : String) (port duration total : Nat)
    (outputs : Nat → String) (runningAt : Nat → Bool) :
    Nat → List Nat → List Dict → List Dict × List Ev × List (List String)
  | _, [], results => (results, [], [])
  | idx, size :: rest, results =>
    if runningAt idx then
      let r := parseSizeTest (outputs idx) size
      let rec2 := runMultiAux host port duration total outputs runningAt
        (idx + 1) rest (results ++ [r])
      (rec2.1,
        Ev.multiProgress size ((idx : Rat) / (total : Rat) * 100) (idx + 1) total ::
          Ev.multiResult r :: rec2.2.1,
        pingPongCmd host port duration size :: rec2.2.2)
    else (results, [], [])

/-- `SockPerfTool._run_multi_size_test` (no-exception execution): the
loop over sizes, then the final 100% progress notification and the
`multi_size_complete` event carrying the accumulated results.  These
final notifications run on loop exit and after a `break` alike. -/
def runMulti (host : String) (port duration : Nat) (msgSizes : List Nat)
    (outputs : Nat → String) (runningAt : Nat → Bool) :
    List Ev × List (List String) :=
  let total := msgSizes.length
  match runMultiAux host port duration total outputs runningAt 0 msgSizes [] with
  | (results, evs, spawns) =>
    (evs ++ [Ev.multiProgress 0 100 total total, Ev.multiComplete results], spawns)

/-! ## app.py broadcast model -/

/-- One WebSocket subscriber: an identifier and whether `send_json`
currently succeeds on its channel. -/
structure Conn where
  id : Nat
  healthy : Bool
deriving DecidableEq

/-- `broadcast` in `app.py`: attempt delivery to every connection in
order, swallowing per-connection failures (`except: pass`).  Returns
the connection list as it stands after the broadcast and the ids that
received the message. -/
def broadcastRun (conns : List Conn) : List Conn × List Nat :=
  (conns, conns.filterMap (fun c => if c.healthy then some c.id else none))

/-! ## Helper lemmas on the parse steps -/

theorem dictKeys_setIfMatch (d : Dict) (key : String) (toks : List PTok)
    (out : List Char) (h : key ∈ dictKeys d) :
    dictKeys (setIfMatch d key toks out) = dictKeys d := by
  unfold setIfMatch
  cases searchToks toks out with
  | none => rfl
  | some cap => exact dictKeys_dictSet_of_mem d key (parseFloat cap) h

theorem dictGet_setIfMatch_ne (d : Dict) (key : String) (toks : List PTok)
    (out : List Char) (k : String) (h : k ≠ key) :
    dictGet (setIfMatch d key toks out) k = dictGet d k := by
  unfold setIfMatch
  cases searchToks toks out with
  | none => rfl
  | some cap => exact dictGet_dictSet_ne d key k (parseFloat cap) h

/-- The six latency extractions preserve the key set whenever the six
latency keys are already present. -/
theorem dictKeys_latencySix (d : Dict) (out : List Char)
    (h1 : ("latency_avg_us" : String) ∈ dictKeys d)
    (h2 : ("latency_min_us" : String) ∈ dictKeys d)
    (h3 : ("latency_max_us" : String) ∈ dictKeys d)
    (h4 : ("latency_p50_us" : String) ∈ dictKeys d)
    (h5 : ("latency_p90_us" : String) ∈ dictKeys d)
    (h6 : ("latency_p99_us" : String) ∈ dictKeys d) :
    dictKeys (latencySix d out) = dictKeys d := by
  unfold latencySix
  have k1 := dictKeys_setIfMatch d "latency_avg_us" patAvgLatency out h1
  have k2 := dictKeys_setIfMatch _ "latency_min_us" patMinLatency out
    (by rw [k1]; exact h2)
  have k3 := dictKeys_setIfMatch _ "latency_max_us" patMaxLatency out
    (by rw [k2, k1]; exact h3)
  have k4 := dictKeys_setIfMatch _ "latency_p50_us" patP50 out
    (by rw [k3, k2, k1]; exact h4)
  have k5 := dictKeys_setIfMatch _ "latency_p90_us" patP90 out
    (by rw [k4, k3, k2, k1]; exact h5)
  have k6 := dictKeys_setIfMatch _ "latency_p99_us" patP99 out
    (by rw [k5, k4, k3, k2, k1]; exact h6)
  rw [k6, k5, k4, k3, k2, k1]

/-- The six latency extractions do not touch any other field. -/
theorem dictGet_latencySix_ne (d : Dict) (out : List Char) (k : String)
    (h1 : k ≠ "latency_avg_us") (h2 : k ≠ "latency_min_us")
    (h3 : k ≠ "latency_max_us") (h4 : k ≠ "latency_p50_us")
    (h5 : k ≠ "latency_p90_us") (h6 : k ≠ "latency_p99_us") :
    dictGet (latencySix d out) k = dictGet d k := by
  unfold latencySix
  rw [dictGet_setIfMatch_ne _ _ _ _ _ h6, dictGet_setIfMatch_ne _ _ _ _ _ h5,
    dictGet_setIfMatch_ne _ _ _ _ _ h4, dictGet_setIfMatch_ne _ _ _ _ _ h3,
    dictGet_setIfMatch_ne _ _ _ _ _ h2, dictGet_setIfMatch_ne _ _ _ _ _ h1]

/-! ## Event classifiers -/

def isProgressEv : Ev → Bool
  | Ev.progress _ => true
  | _ => false

def isTerminalEv : Ev → Bool
  | Ev.testComplete _ => true
  | Ev.errorEv _ => true
  | _ => false

/-- Payload extractor for per-phase result events. -/
def evResult : Ev → Option Dict
  | Ev.multiResult r => some r
  | _ => none

/-! ## Claims -/

/-- Claim C1: While a session is active (`self.running` set), every start
operation of either tool family returns `False` and spawns no external
process, leaving the state untouched: at most one session per tool
family is ever live. -/
theorem claim_C1_mutual_exclusion (t : ToolState) (h : t.running = true)
    (host bandwidth : String) (port duration parallel msgSize mps : Nat)
    (udp : Bool) (sizes : List Nat) :
    startClient t host port duration udp bandwidth parallel = (false, t, []) ∧
    startPingPong t host port duration msgSize = (false, t, []) ∧
    startUnderLoad t host port duration msgSize mps = (false, t, []) ∧
    startMultiSize t host port duration sizes = (false, t, []) := by
  refine ⟨?_, ?_, ?_, ?_⟩ <;>
    simp [startClient, startPingPong, startUnderLoad, startMultiSize, h]

theorem claim_C1_witness :
    (ToolState.mk true none initIperfStats).running = true ∧
    startClient (ToolState.mk true none initIperfStats)
        "127.0.0.1" 5201 10 false "100M" 1 =
      (false, ToolState.mk true none initIperfStats, []) :=
  ⟨rfl, (claim_C1_mutual_exclusion (ToolState.mk true none initIperfStats) rfl
    "127.0.0.1" "100M" 5201 10 1 64 10000 false [64]).1⟩

/-- Claim C5: `stop` is total (it never raises: the only fallible call is
wrapped in `try/except` in the source) and idempotent: a second
consecutive call changes nothing and performs no termination action;
on an idle tool it is a no-op; it never touches the stats. -/
theorem claim_C5_stop_idempotent (t : ToolState) :
    (stopTool ((stopTool t).1)).1 = (stopTool t).1 ∧
    (stopTool ((stopTool t).1)).2 = [] ∧
    (stopTool t).1.stats = t.stats ∧
    (t.running = false ∧ t.process = none → stopTool t = (t, [])) := by
  cases t with
  | mk running process stats =>
    cases process with
    | none =>
      refine ⟨rfl, rfl, rfl, ?_⟩
      rintro ⟨h1, -⟩
      simp only at h1
      subst h1
      rfl
    | some p => exact ⟨rfl, rfl, rfl, by rintro ⟨-, h2⟩; cases h2⟩

theorem claim_C5_witness :
    ((initIperf.running = false ∧ initIperf.process = none) ∧
      stopTool initIperf = (initIperf, [])) ∧
    (stopTool ((stopTool (ToolState.mk true (some ["iperf3"]) initIperfStats)).1)).1 =
      (stopTool (ToolState.mk true (some ["iperf3"]) initIperfStats)).1 :=
  ⟨⟨⟨rfl, rfl⟩, (claim_C5_stop_idempotent initIperf).2.2.2 ⟨rfl, rfl⟩⟩,
    (claim_C5_stop_idempotent (ToolState.mk true (some ["iperf3"]) initIperfStats)).1⟩

/-- Claim C9 counterexample: The claim says a subscriber whose delivery
fails is removed from the subscriber set.  In `app.py`'s `broadcast`
the failure is swallowed (`except: pass`) and `active_connections` is
left untouched: after broadcasting to a single broken subscriber, that
subscriber received nothing yet is still in the set. -/
theorem claim_C9_counterexample :
    (broadcastRun [Conn.mk 0 false]).2 = [] ∧
    Conn.mk 0 false ∈ (broadcastRun [Conn.mk 0 false]).1 := by
  exact ⟨rfl, by simp [broadcastRun]⟩

/-- Claim C9, amended: When delivery to a subscriber fails, the failure
is swallowed: the subscriber is skipped for that event but stays in the
subscriber set (the set is never modified by the delivery path), the
producing session is unaffected, and every healthy subscriber —
wherever it sits relative to broken ones — still receives the event. -/
theorem claim_C9_delivery (pre post : List Conn) (c : Conn)
    (h : c.healthy = true) :
    (broadcastRun (pre ++ c :: post)).1 = pre ++ c :: post ∧
    c.id ∈ (broadcastRun (pre ++ c :: post)).2 ∧
    (broadcastRun (pre ++ c :: post)).2 =
      List.map (fun c => c.id) (List.filter (fun c => c.healthy) (pre ++ c :: post)) := by
  refine ⟨rfl, ?_, ?_⟩
  · exact List.mem_filterMap.mpr ⟨c, by simp, by simp [h]⟩
  · simp only [broadcastRun]
    induction (pre ++ c :: post) with
    | nil => rfl
    | cons e rest ih =>
      cases he : e.healthy with
      | true => simp [he, ih]
      | false => simp [he, ih]

theorem claim_C9_witness :
    (Conn.mk 1 true).healthy = true ∧
    (broadcastRun [Conn.mk 0 false, Conn.mk 1 true]).1 =
      [Conn.mk 0 false, Conn.mk 1 true] ∧
    (1 : Nat) ∈ (broadcastRun [Conn.mk 0 false, Conn.mk 1 true]).2 :=
  ⟨rfl, (claim_C9_delivery [Conn.mk 0 false] [] (Conn.mk 1 true) rfl).1,
    (claim_C9_delivery [Conn.mk 0 false] [] (Conn.mk 1 true) rfl).2.1⟩

/-- Claim C4: A line matching no recognized pattern changes nothing and
publishes nothing, in either parser.  (The captured numeric text of
every pattern has shape `\d+\.?\d*` or `\d+` and therefore always
parses; the `try/except` guards in the source can thus only fire when a
pattern fails to match, which is the case covered here — parsing never
aborts the session either way, both parse functions being total.) -/
theorem claim_C4_malformed_resilience (s : Dict) (line : String)
    (h1 : findRate line.data = none)
    (h2 : searchToks patTotalMessages line.data = none) :
    parseProgressLine s line = (s, []) ∧ parseLine s line = s := by
  constructor
  · unfold parseProgressLine
    rw [h1]
  · unfold parseLine
    rw [h2]
    by_cases hs : containsSub ("messages sent").data line.data = true <;>
      by_cases hr : containsSub ("messages received").data line.data = true <;>
        simp [hs, hr]

theorem claim_C4_witness :
    (findRate ("no stats here!").data = none ∧
      searchToks patTotalMessages ("no stats here!").data = none) ∧
    parseProgressLine initIperfStats "no stats here!" = (initIperfStats, []) ∧
    parseLine initSockStats "no stats here!" = initSockStats :=
  ⟨⟨by decide, by decide⟩,
    (claim_C4_malformed_resilience initIperfStats "no stats here!"
      (by decide) (by decide)).1,
    (claim_C4_malformed_resilience initSockStats "no stats here!"
      (by decide) (by decide)).2⟩

/-- Claim C10: Every operation preserves the key set of the stats dict:
it stays exactly the fixed key list established at construction (all
values being numeric by the type of `Dict`), and no start operation
touches the stats at all, so metrics from a previous run persist until
a later matching line overwrites them. -/
theorem claim_C10_key_preservation :
    dictKeys initIperfStats = iperfKeys ∧
    dictKeys initSockStats = sockKeys ∧
    (∀ s line, dictKeys s = iperfKeys →
      dictKeys (parseProgressLine s line).1 = iperfKeys) ∧
    (∀ s line, dictKeys s = sockKeys → dictKeys (parseLine s line) = sockKeys) ∧
    (∀ s out, dictKeys s = sockKeys → dictKeys (parseSummary s out) = sockKeys) ∧
    (∀ t host bw port dur par udp,
      ((startClient t host port dur udp bw par).2.1).stats = t.stats) ∧
    (∀ t port, ((startServer t port).2.1).stats = t.stats) ∧
    (∀ t host port dur ms, ((startPingPong t host port dur ms).2.1).stats = t.stats) ∧
    (∀ t host port dur ms mps,
      ((startUnderLoad t host port dur ms mps).2.1).stats = t.stats) ∧
    (∀ t host port dur sizes,
      ((startMultiSize t host port dur sizes).2.1).stats = t.stats) ∧
    (∀ t, ((stopTool t).1).stats = t.stats) ∧
    (∀ t, getStats t = t.stats) := by
  refine ⟨rfl, rfl, ?_, ?_, ?_, ?_, ?_, ?_, ?_, ?_, ?_, fun t => rfl⟩
  · intro s line hs
    unfold parseProgressLine
    cases findRate line.data with
    | none => exact hs
    | some r =>
      rw [dictKeys_dictSet_of_mem]
      · exact hs
      · rw [hs]; decide
  · intro s line hs
    unfold parseLine
    have hset : ∀ d : Dict, dictKeys d = sockKeys →
        dictKeys (match searchToks patTotalMessages line.data with
          | some ds => dictSet d "packets_sent" (digitsToNat ds : Rat)
          | none => d) = sockKeys := by
      intro d hd
      cases searchToks patTotalMessages line.data with
      | none => exact hd
      | some ds =>
        rw [dictKeys_dictSet_of_mem]
        · exact hd
        · rw [hd]; decide
    have hrecv : ∀ d : Dict, dictKeys d = sockKeys →
        dictKeys (match searchToks patTotalMessages line.data with
          | some ds => dictSet d "packets_received" (digitsToNat ds : Rat)
          | none => d) = sockKeys := by
      intro d hd
      cases searchToks patTotalMessages line.data with
      | none => exact hd
      | some ds =>
        rw [dictKeys_dictSet_of_mem]
        · exact hd
        · rw [hd]; decide
    by_cases hsent : containsSub ("messages sent").data line.data = true <;>
      by_cases hrcv : containsSub ("messages received").data line.data = true <;>
        simp only [hsent, hrcv, if_pos, if_neg, Bool.false_eq_true, not_false_iff,
          if_true, if_false]
    · exact hrecv _ (hset s hs)
    · exact hset s hs
    · exact hrecv s hs
    · exact hs
  · intro s out hs
    unfold parseSummary
    have hall : dictKeys (latencySix s out.data) = sockKeys := by
      rw [dictKeys_latencySix s out.data] <;> rw [hs] <;> first | rfl | decide
    by_cases hpos : dictGet (latencySix s out.data) "packets_sent" > 0
    · rw [if_pos hpos, dictKeys_dictSet_of_mem]
      · exact hall
      · rw [hall]; decide
    · rw [if_neg hpos]
      exact hall
  · intro t host bw port dur par udp
    by_cases ht : t.running = true <;> simp [startClient, ht]
  · intro t port
    by_cases ht : t.running = true <;> simp [startServer, ht]
  · intro t host port dur ms
    by_cases ht : t.running = true <;> simp [startPingPong, ht]
  · intro t host port dur ms mps
    by_cases ht : t.running = true <;> simp [startUnderLoad, ht]
  · intro t host port dur sizes
    by_cases ht : t.running = true <;> simp [startMultiSize, ht]
  · intro t
    unfold stopTool
    cases t.process with
    | none => rfl
    | some p => rfl

theorem claim_C10_witness :
    dictKeys initIperfStats = iperfKeys ∧
    dictKeys (parseProgressLine initIperfStats " 105 Mbits/sec").1 = iperfKeys ∧
    dictKeys (parseLine initSockStats "Total 5 messages sent") = sockKeys ∧
    dictKeys (parseSummary initSockStats "Summary: Latency is 1.5 usec") = sockKeys :=
  ⟨rfl,
    claim_C10_key_preservation.2.2.1 initIperfStats " 105 Mbits/sec" rfl,
    claim_C10_key_preservation.2.2.2.1 initSockStats "Total 5 messages sent" rfl,
    claim_C10_key_preservation.2.2.2.2.1 initSockStats "Summary: Latency is 1.5 usec" rfl⟩

theorem setIfMatch_of_none (d : Dict) (key : String) (toks : List PTok)
    (out : List Char) (h : searchToks toks out = none) :
    setIfMatch d key toks out = d := by
  unfold setIfMatch
  rw [h]

/-- `_parse_summary` on empty output: nothing matches, so the result is
the input when the sent counter is zero, and otherwise only the loss
field is recomputed. -/
theorem parseSummary_empty (d : Dict) :
    parseSummary d "" =
      if dictGet d "packets_sent" > 0 then
        dictSet d "packet_loss"
          ((dictGet d "packets_sent" - dictGet d "packets_received") /
            dictGet d "packets_sent" * 100)
      else d := by
  have hsix : latencySix d ("" : String).data = d := by
    unfold latencySix
    rw [setIfMatch_of_none _ _ _ _ (by decide), setIfMatch_of_none _ _ _ _ (by decide),
      setIfMatch_of_none _ _ _ _ (by decide), setIfMatch_of_none _ _ _ _ (by decide),
      setIfMatch_of_none _ _ _ _ (by decide), setIfMatch_of_none _ _ _ _ (by decide)]
  unfold parseSummary
  rw [hsix]

/-- Claim C3 counterexample: The claim says the summary step yields
`packet_loss = 0` whenever `packets_sent = 0`.  The code instead skips
the assignment, keeping the prior value.  The state below is reached
from a fresh tool by operations of the code itself: a first run reports
100 sent / 0 received (its summary sets the loss to 100), a second run
reports 0 sent; the second summary step leaves the loss at 100, not 0. -/
def c3Line1 : String := "sockperf: Total 100 messages sent in 10.001 sec"

def c3Line2 : String := "sockperf: Total 0 messages sent in 10.001 sec"

def c3State : Dict :=
  parseLine (parseSummary (parseLine initSockStats c3Line1) "") c3Line2

theorem claim_C3_counterexample :
    dictGet c3State "packets_sent" = 0 ∧
    dictGet (parseSummary c3State "") "packet_loss" = 100 ∧
    ¬ dictGet (parseSummary c3State "") "packet_loss" = 0 := by
  have hd1 : parseLine initSockStats c3Line1 =
      dictSet initSockStats "packets_sent" ((digitsToNat (['1', '0', '0']) : Nat) : Rat) := by
    unfold parseLine
    rw [show containsSub ("messages sent").data c3Line1.data = true from by decide,
      show containsSub ("messages received").data c3Line1.data = false from by decide,
      show searchToks patTotalMessages c3Line1.data = some ['1', '0', '0'] from by decide]
    simp
  have g1s : dictGet (parseLine initSockStats c3Line1) "packets_sent" = 100 := by
    rw [hd1, dictGet_dictSet_self]
    rw [show digitsToNat (['1', '0', '0']) = 100 from by decide]
    norm_num
  have g1r : dictGet (parseLine initSockStats c3Line1) "packets_received" = 0 := by
    rw [hd1, dictGet_dictSet_ne _ _ _ _ (by decide)]
    decide
  have g1l : dictGet (parseLine initSockStats c3Line1) "packet_loss" = 0 := by
    rw [hd1, dictGet_dictSet_ne _ _ _ _ (by decide)]
    decide
  have hd2 : parseSummary (parseLine initSockStats c3Line1) "" =
      dictSet (parseLine initSockStats c3Line1) "packet_loss"
        ((dictGet (parseLine initSockStats c3Line1) "packets_sent" -
            dictGet (parseLine initSockStats c3Line1) "packets_received") /
          dictGet (parseLine initSockStats c3Line1) "packets_sent" * 100) := by
    rw [parseSummary_empty, if_pos (by rw [g1s]; norm_num)]
  have g2l : dictGet (parseSummary (parseLine initSockStats c3Line1) "") "packet_loss" = 100 := by
    rw [hd2, dictGet_dictSet_self, g1s, g1r]
    norm_num
  have hd3 : c3State =
      dictSet (parseSummary (parseLine initSockStats c3Line1) "") "packets_sent"
        ((digitsToNat (['0']) : Nat) : Rat) := by
    unfold c3State parseLine
    rw [show containsSub ("messages sent").data c3Line2.data = true from by decide,
      show containsSub ("messages received").data c3Line2.data = false from by decide,
      show searchToks patTotalMessages c3Line2.data = some ['0'] from by decide]
    simp
  have g3s : dictGet c3State "packets_sent" = 0 := by
    rw [hd3, dictGet_dictSet_self]
    rw [show digitsToNat (['0']) = 0 from by decide]
    norm_num
  have g3l : dictGet c3State "packet_loss" = 100 := by
    rw [hd3, dictGet_dictSet_ne _ _ _ _ (by decide), g2l]
  have hfinal : parseSummary c3State "" = c3State := by
    rw [parseSummary_empty, g3s, if_neg (lt_irrefl 0)]
  refine ⟨g3s, ?_, ?_⟩
  · rw [hfinal, g3l]
  · rw [hfinal, g3l]
    norm_num

/-- Claim C3, amended: In the summary step, whenever `packets_sent > 0`
the computed `packet_loss` equals `(sent - received) / sent * 100`
(so sent=10000, received=9999 gives 0.01, as the witness instantiates);
when `packets_sent = 0` the loss field is left at its prior value
(which is 0 on a freshly constructed tool).  No division by zero ever
occurs: the `sent > 0` guard, not error propagation, protects the
division. -/
theorem claim_C3_packet_loss (d : Dict) (out : String) :
    (0 < dictGet d "packets_sent" →
      dictGet (parseSummary d out) "packet_loss" =
        (dictGet d "packets_sent" - dictGet d "packets_received") /
          dictGet d "packets_sent" * 100) ∧
    (dictGet d "packets_sent" = 0 →
      dictGet (parseSummary d out) "packet_loss" = dictGet d "packet_loss") := by
  unfold parseSummary
  have hs := dictGet_latencySix_ne d out.data "packets_sent"
    (by decide) (by decide) (by decide) (by decide) (by decide) (by decide)
  have hr := dictGet_latencySix_ne d out.data "packets_received"
    (by decide) (by decide) (by decide) (by decide) (by decide) (by decide)
  have hl := dictGet_latencySix_ne d out.data "packet_loss"
    (by decide) (by decide) (by decide) (by decide) (by decide) (by decide)
  rw [hs, hr]
  constructor
  · intro hpos
    rw [if_pos hpos, dictGet_dictSet_self]
  · intro hzero
    rw [hzero, if_neg (lt_irrefl 0)]
    exact hl

theorem claim_C3_witness :
    dictGet
      (parseSummary
        (dictSet (dictSet initSockStats "packets_sent" 10000)
          "packets_received" 9999) "") "packet_loss" = 1 / 100 ∧
    dictGet (parseSummary c3State "") "packet_loss" = dictGet c3State "packet_loss" := by
  have hs : dictGet (dictSet (dictSet initSockStats "packets_sent" 10000)
      "packets_received" 9999) "packets_sent" = 10000 := by
    rw [dictGet_dictSet_ne _ _ _ _ (by decide), dictGet_dictSet_self]
  have hr : dictGet (dictSet (dictSet initSockStats "packets_sent" 10000)
      "packets_received" 9999) "packets_received" = 9999 :=
    dictGet_dictSet_self _ _ _
  have hzero : dictGet c3State "packets_sent" = 0 := by decide
  constructor
  · have h := (claim_C3_packet_loss
      (dictSet (dictSet initSockStats "packets_sent" 10000)
        "packets_received" 9999) "").1 (by rw [hs]; norm_num)
    rw [h, hs, hr]
    norm_num
  · exact (claim_C3_packet_loss c3State "").2 hzero

theorem parseProgressLine_events (s : Dict) (l : String) :
    ∀ e ∈ (parseProgressLine s l).2, isProgressEv e = true := by
  unfold parseProgressLine
  cases hf : findRate l.data with
  | none => intro e he; cases he
  | some r =>
    rcases r with ⟨num, unit⟩
    intro e he
    have he2 : e ∈ [Ev.progress (convertMbps num unit)] := he
    rw [List.mem_singleton] at he2
    subst he2
    rfl

theorem runClientStep_snd (acc : Dict × List Ev) (l : String) :
    ∃ evs, (runClientStep acc l).2 = acc.2 ++ evs ∧
      ∀ e ∈ evs, isProgressEv e = true := by
  unfold runClientStep
  by_cases hg : clientLineGuard l = true
  · rw [if_pos hg]
    refine ⟨(parseProgressLine acc.1 l).2, ?_, parseProgressLine_events acc.1 l⟩
    rcases hp : parseProgressLine acc.1 l with ⟨s, evs⟩
    simp [hp]
  · rw [if_neg hg]
    exact ⟨[], by simp, by intro e he; cases he⟩

theorem foldl_runClientStep_progress (lines : List String) :
    ∀ acc : Dict × List Ev,
      ∃ extra, (List.foldl runClientStep acc lines).2 = acc.2 ++ extra ∧
        ∀ e ∈ extra, isProgressEv e = true := by
  induction lines with
  | nil => exact fun acc => ⟨[], by simp, by intro e he; cases he⟩
  | cons l ls ih =>
    intro acc
    rcases runClientStep_snd acc l with ⟨evs, hstep, hprog⟩
    rcases ih (runClientStep acc l) with ⟨extra, hfold, hprog2⟩
    refine ⟨evs ++ extra, ?_, ?_⟩
    · rw [List.foldl_cons, hfold, hstep, List.append_assoc]
    · intro e he
      rcases List.mem_append.mp he with he | he
      · exact hprog e he
      · exact hprog2 e he

theorem progress_not_terminal (e : Ev) (h : isProgressEv e = true) :
    isTerminalEv e = false := by
  cases e <;> first | rfl | cases h

/-- Claim C6: For one session run observed by a subscriber attached before
the start, the events come in publication order: the start notification
first, then only progress events, then exactly one terminal event
(`test_complete` on completion, or an error event when the runner body
fails) — never two terminal events for one session.  Both the
throughput runner (`_run_client`) and the latency runner (`_run_test`)
have this shape. -/
theorem claim_C6_event_ordering (stats : Dict) (lines : List String)
    (exc : Option (Nat × String)) :
    (∃ mid term, clientSessionTrace stats lines exc = Ev.started :: (mid ++ [term]) ∧
      (∀ e ∈ mid, isProgressEv e = true) ∧ isTerminalEv term = true ∧
      List.countP isTerminalEv (clientSessionTrace stats lines exc) = 1) ∧
    (∃ term2, sockSessionTrace stats lines exc = [Ev.started, term2] ∧
      isTerminalEv term2 = true ∧
      List.countP isTerminalEv (sockSessionTrace stats lines exc) = 1) := by
  constructor
  · have key : ∀ (input : List String) (term : Ev), isTerminalEv term = true →
        ∀ s evs, List.foldl runClientStep (stats, ([] : List Ev)) input = (s, evs) →
        (∀ e ∈ evs, isProgressEv e = true) ∧
          List.countP isTerminalEv (Ev.started :: (evs ++ [term])) = 1 := by
      intro input term hterm s evs hfold
      rcases foldl_runClientStep_progress input (stats, []) with ⟨extra, hex, hprog⟩
      rw [hfold] at hex
      simp only [List.nil_append] at hex
      subst hex
      refine ⟨hprog, ?_⟩
      rw [List.countP_cons, List.countP_append, List.countP_eq_zero.mpr
        (fun e he => by
          rw [progress_not_terminal e (hprog e he)]; exact Bool.false_ne_true),
        List.countP_cons, List.countP_nil, hterm]
      simp [isTerminalEv]
    cases exc with
    | none =>
      rcases hfold : List.foldl runClientStep (stats, ([] : List Ev)) lines with ⟨s, evs⟩
      have htr : clientSessionTrace stats lines none =
          Ev.started :: (evs ++ [Ev.testComplete s]) := by
        rw [show clientSessionTrace stats lines none = Ev.started ::
          ((List.foldl runClientStep (stats, ([] : List Ev)) lines).2 ++
            [Ev.testComplete (List.foldl runClientStep (stats, ([] : List Ev)) lines).1])
          from rfl, hfold]
      refine ⟨evs, Ev.testComplete s, htr, ?_, rfl, ?_⟩
      · exact (key lines (Ev.testComplete s) rfl s evs hfold).1
      · rw [htr]
        exact (key lines (Ev.testComplete s) rfl s evs hfold).2
    | some jm =>
      rcases jm with ⟨j, m⟩
      rcases hfold : List.foldl runClientStep (stats, ([] : List Ev)) (lines.take j)
        with ⟨s, evs⟩
      have htr : clientSessionTrace stats lines (some (j, m)) =
          Ev.started :: (evs ++ [Ev.errorEv m]) := by
        rw [show clientSessionTrace stats lines (some (j, m)) = Ev.started ::
          ((List.foldl runClientStep (stats, ([] : List Ev)) (lines.take j)).2 ++
            [Ev.errorEv m]) from rfl, hfold]
      refine ⟨evs, Ev.errorEv m, htr, ?_, rfl, ?_⟩
      · exact (key (lines.take j) (Ev.errorEv m) rfl s evs hfold).1
      · rw [htr]
        exact (key (lines.take j) (Ev.errorEv m) rfl s evs hfold).2
  · cases exc with
    | none =>
      refine ⟨Ev.testComplete (parseSummary (List.foldl parseLine stats lines)
        (String.join lines)), rfl, rfl, rfl⟩
    | some jm =>
      rcases jm with ⟨j, m⟩
      exact ⟨Ev.errorEv m, rfl, rfl, rfl⟩

/-- The per-phase `msg_size` tag survives the latency extractions. -/
theorem parseSizeTest_msg_size (o : String) (s : Nat) :
    dictGet (parseSizeTest o s) "msg_size" = (s : Rat) := by
  unfold parseSizeTest
  rw [dictGet_latencySix_ne _ _ _ (by decide) (by decide) (by decide)
    (by decide) (by decide) (by decide)]
  rfl

/-- The events of the phases whose index-size pairs are `l`, in the
order `_run_multi_size_test` publishes them. -/
def phaseEvents (total : Nat) (outputs : Nat → String) : List (Nat × Nat) → List Ev
  | [] => []
  | p :: rest =>
    Ev.multiProgress p.2 ((p.1 : Rat) / (total : Rat) * 100) (p.1 + 1) total ::
      Ev.multiResult (parseSizeTest (outputs p.1) p.2) :: phaseEvents total outputs rest

/-- The per-phase results of the phases whose index-size pairs are `l`. -/
def phaseResults (outputs : Nat → String) (l : List (Nat × Nat)) : List Dict :=
  List.map (fun p => parseSizeTest (outputs p.1) p.2) l

/-- Closed form of the `_run_multi_size_test` loop when the running
flag reads true exactly on iterations below `k` (a cancellation by
`stop` observed at iteration `k` — `k` past the list length meaning no
cancellation): only the first `k` phases run. -/
theorem runMultiAux_spec (host : String) (port duration total k : Nat)
    (outputs : Nat → String) (runningAt : Nat → Bool)
    (hrun : ∀ i, runningAt i = decide (i < k)) :
    ∀ (sizes : List Nat) (idx : Nat) (acc : List Dict),
      runMultiAux host port duration total outputs runningAt idx sizes acc =
        (acc ++ phaseResults outputs (List.enumFrom idx (sizes.take (k - idx))),
          phaseEvents total outputs (List.enumFrom idx (sizes.take (k - idx))),
          List.map (pingPongCmd host port duration) (sizes.take (k - idx))) := by
  intro sizes
  induction sizes with
  | nil =>
    intro idx acc
    simp [runMultiAux, phaseResults, phaseEvents]
  | cons s rest ih =>
    intro idx acc
    by_cases hik : idx < k
    · have hb : runningAt idx = true := by
        rw [hrun idx]; exact decide_eq_true hik
      obtain ⟨m, hm⟩ : ∃ m, k - idx = m + 1 := ⟨k - idx - 1, by omega⟩
      have hm2 : k - (idx + 1) = m := by omega
      rw [runMultiAux, hb, hm, List.take_succ_cons, List.enumFrom_cons]
      simp only [if_true, ih (idx + 1) (acc ++ [parseSizeTest (outputs idx) s]), hm2]
      simp [phaseResults, phaseEvents, List.append_assoc]
    · have hb : runningAt idx = false := by
        rw [hrun idx]; exact decide_eq_false hik
      have h0 : k - idx = 0 := by omega
      rw [runMultiAux, hb, h0, List.take_zero]
      simp [phaseResults, phaseEvents]

theorem getLast?_append_pair {α : Type} (l : List α) (a b : α) :
    (l ++ [a, b]).getLast? = some b := by
  have h : l ++ [a, b] = (l ++ [a]) ++ [b] := by simp
  rw [h, List.getLast?_concat]

theorem mem_phaseEvents (total : Nat) (outputs : Nat → String) :
    ∀ (l : List (Nat × Nat)) (r : Dict),
      Ev.multiResult r ∈ phaseEvents total outputs l →
        r ∈ phaseResults outputs l := by
  intro l
  induction l with
  | nil => intro r hr; cases hr
  | cons p rest ih =>
    intro r hr
    rw [phaseEvents, List.mem_cons, List.mem_cons] at hr
    rcases hr with hr | hr | hr
    · cases hr
    · simp only [Ev.multiResult.injEq] at hr
      subst hr
      exact List.mem_cons_self _ _
    · exact List.mem_cons_of_mem _ (ih r hr)

/-- Closed form of `_run_multi_size_test` under the `runningAt` regime
of `runMultiAux_spec`. -/
theorem runMulti_spec (host : String) (port duration k : Nat)
    (sizes : List Nat) (outputs : Nat → String) (runningAt : Nat → Bool)
    (hrun : ∀ i, runningAt i = decide (i < k)) :
    runMulti host port duration sizes outputs runningAt =
      (phaseEvents sizes.length outputs (List.enumFrom 0 (sizes.take k)) ++
        [Ev.multiProgress 0 100 sizes.length sizes.length,
          Ev.multiComplete (phaseResults outputs (List.enumFrom 0 (sizes.take k)))],
        List.map (pingPongCmd host port duration) (sizes.take k)) := by
  have hshape : runMulti host port duration sizes outputs runningAt =
      ((runMultiAux host port duration sizes.length outputs runningAt 0 sizes []).2.1 ++
        [Ev.multiProgress 0 100 sizes.length sizes.length,
          Ev.multiComplete
            (runMultiAux host port duration sizes.length outputs runningAt 0 sizes []).1],
        (runMultiAux host port duration sizes.length outputs runningAt 0 sizes []).2.2) :=
    rfl
  rw [hshape, runMultiAux_spec host port duration sizes.length k outputs runningAt hrun
    sizes 0 []]
  simp

/-- Claim C8: If a multi-size run is cancelled (the running flag, cleared
by `stop`, reads false from iteration `k` on), the runner starts no
phase from index `k` on — the spawned commands are exactly those of the
first `k` phases — and the per-phase results already published are all
retained in the aggregate result list of the final completion event. -/
theorem claim_C8_cancellation (host : String) (port duration k : Nat)
    (sizes : List Nat) (outputs : Nat → String) (runningAt : Nat → Bool)
    (hrun : ∀ i, runningAt i = decide (i < k)) :
    (runMulti host port duration sizes outputs runningAt).2 =
      List.map (pingPongCmd host port duration) (sizes.take k) ∧
    (runMulti host port duration sizes outputs runningAt).1.getLast? =
      some (Ev.multiComplete
        (phaseResults outputs (List.enumFrom 0 (sizes.take k)))) ∧
    (∀ r, Ev.multiResult r ∈ (runMulti host port duration sizes outputs runningAt).1 →
      r ∈ phaseResults outputs (List.enumFrom 0 (sizes.take k))) := by
  rw [runMulti_spec host port duration k sizes outputs runningAt hrun]
  refine ⟨rfl, getLast?_append_pair _ _ _, ?_⟩
  intro r hr
  rcases List.mem_append.mp hr with hr | hr
  · exact mem_phaseEvents _ _ _ r hr
  · rw [List.mem_cons, List.mem_cons] at hr
    rcases hr with hr | hr | hr
    · cases hr
    · cases hr
    · cases hr

theorem claim_C8_witness :
    ((∀ i, (fun i => decide (i < 1)) i = decide (i < 1)) ∧
      (runMulti "10.0.0.1" 11111 10 [64, 128, 256] (fun _ => "")
        (fun i => decide (i < 1))).2 =
        List.map (pingPongCmd "10.0.0.1" 11111 10) ([64, 128, 256].take 1)) ∧
    (runMulti "10.0.0.1" 11111 10 [64, 128, 256] (fun _ => "")
      (fun i => decide (i < 1))).1.getLast? =
      some (Ev.multiComplete (phaseResults (fun _ => "")
        (List.enumFrom 0 ([64, 128, 256].take 1)))) :=
  ⟨⟨fun i => rfl,
    (claim_C8_cancellation "10.0.0.1" 11111 10 1 [64, 128, 256] (fun _ => "")
      (fun i => decide (i < 1)) (fun i => rfl)).1⟩,
    (claim_C8_cancellation "10.0.0.1" 11111 10 1 [64, 128, 256] (fun _ => "")
      (fun i => decide (i < 1)) (fun i => rfl)).2.1⟩

/-- Claim C7: An uncancelled multi-size run over `[64, 128, 256]` in
which every phase completes publishes exactly 3 per-phase result
events, in ascending phase-index order, each tagged with its phase's
`msg_size`, and then one aggregate completion event whose result list
has length exactly 3. -/
theorem claim_C7_multi_phase (host : String) (port duration : Nat)
    (outputs : Nat → String) :
    List.filterMap evResult
        (runMulti host port duration [64, 128, 256] outputs (fun _ => true)).1 =
      [parseSizeTest (outputs 0) 64, parseSizeTest (outputs 1) 128,
        parseSizeTest (outputs 2) 256] ∧
    (∀ i size, dictGet (parseSizeTest (outputs i) size) "msg_size" = (size : Rat)) ∧
    (runMulti host port duration [64, 128, 256] outputs (fun _ => true)).1.getLast? =
      some (Ev.multiComplete [parseSizeTest (outputs 0) 64,
        parseSizeTest (outputs 1) 128, parseSizeTest (outputs 2) 256]) ∧
    [parseSizeTest (outputs 0) 64, parseSizeTest (outputs 1) 128,
      parseSizeTest (outputs 2) 256].length = 3 := by
  refine ⟨?_, fun i size => parseSizeTest_msg_size _ _, ?_, rfl⟩
  · simp [runMulti, runMultiAux, evResult]
  · simp [runMulti, runMultiAux]

/-! ## Characterization of the rate matcher on well-formed tokens -/

theorem takeWhile_append_all {α : Type} (p : α → Bool) (xs ys : List α)
    (hxs : ∀ c ∈ xs, p c = true)
    (hys : ∀ c cs, ys = c :: cs → p c = false) :
    List.takeWhile p (xs ++ ys) = xs := by
  induction xs with
  | nil =>
    cases ys with
    | nil => rfl
    | cons c cs =>
      simp only [List.nil_append, List.takeWhile_cons, hys c cs rfl]
      rfl
  | cons x xs ih =>
    rw [List.cons_append, List.takeWhile_cons, hxs x (List.mem_cons_self x xs)]
    rw [ih (fun c hc => hxs c (List.mem_cons_of_mem x hc))]
    rfl

theorem dropWhile_append_all {α : Type} (p : α → Bool) (xs ys : List α)
    (hxs : ∀ c ∈ xs, p c = true)
    (hys : ∀ c cs, ys = c :: cs → p c = false) :
    List.dropWhile p (xs ++ ys) = ys := by
  induction xs with
  | nil =>
    cases ys with
    | nil => rfl
    | cons c cs =>
      simp only [List.nil_append, List.dropWhile_cons, hys c cs rfl]
      rfl
  | cons x xs ih =>
    rw [List.cons_append, List.dropWhile_cons, hxs x (List.mem_cons_self x xs)]
    exact ih (fun c hc => hxs c (List.mem_cons_of_mem x hc))

theorem pySpace_not_digit_dot (w : Char) (hw : isPySpace w = true) :
    Char.isDigit w = false ∧ w ≠ '.' := by
  simp only [isPySpace, Bool.or_eq_true, decide_eq_true_eq] at hw
  rcases hw with ((((hw | hw) | hw) | hw) | hw) | hw <;> subst hw <;>
    exact ⟨by decide, by decide⟩

theorem pySpace_not_digit (w : Char) (hw : isPySpace w = true) :
    Char.isDigit w = false :=
  (pySpace_not_digit_dot w hw).1

/-- Optional fractional part of a numeric token, as written in the line. -/
def numTail : Option (List Char) → List Char
  | none => []
  | some fs => '.' :: fs

/-- Value denoted by the written numeric token, per the claim's wording. -/
def numVal (ds : List Char) : Option (List Char) → Rat
  | none => (digitsToNat ds : Rat)
  | some fs => (digitsToNat ds : Rat) + (digitsToNat fs : Rat) / (10 : Rat) ^ fs.length

theorem matchNumAt_token (ds : List Char) (fracPart : Option (List Char))
    (X : List Char) (hds_ne : ds ≠ [])
    (hds : ∀ c ∈ ds, Char.isDigit c = true)
    (hfs : ∀ l, fracPart = some l → ∀ c ∈ l, Char.isDigit c = true)
    (hX : ∀ c cs, X = c :: cs → Char.isDigit c = false ∧ c ≠ '.') :
    matchNumAt (ds ++ numTail fracPart ++ X) = some (ds ++ numTail fracPart, X) := by
  cases fracPart with
  | none =>
    simp only [numTail, List.append_nil]
    have htw : List.takeWhile Char.isDigit (ds ++ X) = ds :=
      takeWhile_append_all _ ds X hds (fun c cs h => (hX c cs h).1)
    have hdw : List.dropWhile Char.isDigit (ds ++ X) = X :=
      dropWhile_append_all _ ds X hds (fun c cs h => (hX c cs h).1)
    obtain ⟨d, ds', rfl⟩ : ∃ d ds', ds = d :: ds' := by
      cases ds with
      | nil => exact absurd rfl hds_ne
      | cons a b => exact ⟨a, b, rfl⟩
    cases X with
    | nil => simp only [matchNumAt, htw, hdw]
    | cons c cs =>
      simp only [matchNumAt, htw, hdw]
      rw [if_neg (hX c cs rfl).2]
  | some fs =>
    simp only [numTail]
    have hall : ∀ c ∈ fs, Char.isDigit c = true := hfs fs rfl
    have htw1 : List.takeWhile Char.isDigit (ds ++ ('.' :: (fs ++ X))) = ds :=
      takeWhile_append_all _ ds _ hds (fun c cs h => by
        injection h with h1 _
        subst h1
        decide)
    have hdw1 : List.dropWhile Char.isDigit (ds ++ ('.' :: (fs ++ X))) =
        '.' :: (fs ++ X) :=
      dropWhile_append_all _ ds _ hds (fun c cs h => by
        injection h with h1 _
        subst h1
        decide)
    have htw2 : List.takeWhile Char.isDigit (fs ++ X) = fs :=
      takeWhile_append_all _ fs X hall (fun c cs h => (hX c cs h).1)
    have hdw2 : List.dropWhile Char.isDigit (fs ++ X) = X :=
      dropWhile_append_all _ fs X hall (fun c cs h => (hX c cs h).1)
    obtain ⟨d, ds', rfl⟩ : ∃ d ds', ds = d :: ds' := by
      cases ds with
      | nil => exact absurd rfl hds_ne
      | cons a b => exact ⟨a, b, rfl⟩
    simp only [List.cons_append, List.append_assoc] at htw1 hdw1 ⊢
    simp only [matchNumAt, htw1, hdw1, htw2, hdw2]
    rfl

theorem matchNumAt_none_of_head (c : Char) (l : List Char)
    (hc : Char.isDigit c = false) : matchNumAt (c :: l) = none := by
  have htw : List.takeWhile Char.isDigit (c :: l) = [] := by
    rw [List.takeWhile_cons, hc]
    rfl
  simp only [matchNumAt, htw]

theorem matchRateAt_none_of_head (c : Char) (l : List Char)
    (hc : Char.isDigit c = false) : matchRateAt (c :: l) = none := by
  simp only [matchRateAt, matchNumAt_none_of_head c l hc]

theorem findRate_skip (ctx tail : List Char)
    (hctx : ∀ c ∈ ctx, Char.isDigit c = false) :
    findRate (ctx ++ tail) = findRate tail := by
  induction ctx with
  | nil => rfl
  | cons c ctx' ih =>
    rw [List.cons_append, findRate,
      matchRateAt_none_of_head c _ (hctx c (List.mem_cons_self c ctx'))]
    exact ih (fun x hx => hctx x (List.mem_cons_of_mem c hx))

theorem matchRateAt_token (num ws unitCs rest : List Char)
    (hnum : matchNumAt (num ++ (ws ++ (unitCs ++ rest))) =
      some (num, ws ++ (unitCs ++ rest)))
    (hws_ne : ws ≠ []) (hws : ∀ c ∈ ws, isPySpace c = true)
    (huhead : ∀ c cs, unitCs ++ rest = c :: cs → isPySpace c = false)
    (hunit : matchUnitAt (unitCs ++ rest) = some (unitCs, rest)) :
    matchRateAt (num ++ (ws ++ (unitCs ++ rest))) = some (num, unitCs) := by
  have htw : List.takeWhile isPySpace (ws ++ (unitCs ++ rest)) = ws :=
    takeWhile_append_all _ ws _ hws huhead
  have hdw : List.dropWhile isPySpace (ws ++ (unitCs ++ rest)) = unitCs ++ rest :=
    dropWhile_append_all _ ws _ hws huhead
  obtain ⟨w, ws', rfl⟩ : ∃ w ws', ws = w :: ws' := by
    cases ws with
    | nil => exact absurd rfl hws_ne
    | cons a b => exact ⟨a, b, rfl⟩
  simp only [matchRateAt, hnum, htw, hdw, hunit]

theorem findRate_token (ctx num ws unitCs rest : List Char)
    (hctx : ∀ c ∈ ctx, Char.isDigit c = false) (hnum_ne : num ≠ [])
    (hrate : matchRateAt (num ++ (ws ++ (unitCs ++ rest))) = some (num, unitCs)) :
    findRate (ctx ++ (num ++ (ws ++ (unitCs ++ rest)))) = some (num, unitCs) := by
  rw [findRate_skip ctx _ hctx]
  obtain ⟨d, num', rfl⟩ : ∃ d num', num = d :: num' := by
    cases num with
    | nil => exact absurd rfl hnum_ne
    | cons a b => exact ⟨a, b, rfl⟩
  rw [List.cons_append] at hrate ⊢
  rw [findRate, hrate]

theorem parseFloat_token (ds : List Char) (fracPart : Option (List Char))
    (hds : ∀ c ∈ ds, Char.isDigit c = true)
    (hfs : ∀ l, fracPart = some l → ∀ c ∈ l, Char.isDigit c = true) :
    parseFloat (ds ++ numTail fracPart) = numVal ds fracPart := by
  cases fracPart with
  | none =>
    simp only [numTail, List.append_nil, numVal]
    have htw : List.takeWhile Char.isDigit ds = ds := by
      have h := takeWhile_append_all Char.isDigit ds [] hds
        (fun c cs h => List.noConfusion h)
      rwa [List.append_nil] at h
    have hdw : List.dropWhile Char.isDigit ds = [] := by
      have h := dropWhile_append_all Char.isDigit ds [] hds
        (fun c cs h => List.noConfusion h)
      rwa [List.append_nil] at h
    simp only [parseFloat, hdw, htw]
  | some fs =>
    simp only [numTail, numVal]
    have htw : List.takeWhile Char.isDigit (ds ++ '.' :: fs) = ds :=
      takeWhile_append_all _ ds _ hds (fun c cs h => by
        injection h with h1 _
        subst h1
        decide)
    have hdw : List.dropWhile Char.isDigit (ds ++ '.' :: fs) = '.' :: fs :=
      dropWhile_append_all _ ds _ hds (fun c cs h => by
        injection h with h1 _
        subst h1
        decide)
    simp only [parseFloat, hdw, htw]

/-- The unit text as written in the line: an optional magnitude letter
followed by `bits/sec`. -/
def unitText : Option Char → List Char
  | none => bitsSecPat
  | some c => c :: bitsSecPat

/-- A well-formed rate token in a line makes `_parse_progress_line`
store and publish its converted value. -/
theorem parseProgressLine_token (stats : Dict)
    (ctx ds ws unitCs rest : List Char) (fracPart : Option (List Char))
    (hctx : ∀ c ∈ ctx, Char.isDigit c = false)
    (hds_ne : ds ≠ []) (hds : ∀ c ∈ ds, Char.isDigit c = true)
    (hfs : ∀ l, fracPart = some l → ∀ c ∈ l, Char.isDigit c = true)
    (hws_ne : ws ≠ []) (hws : ∀ c ∈ ws, isPySpace c = true)
    (huhead : ∀ c cs, unitCs ++ rest = c :: cs → isPySpace c = false)
    (hunit : matchUnitAt (unitCs ++ rest) = some (unitCs, rest)) :
    parseProgressLine stats
        (String.mk (ctx ++ ((ds ++ numTail fracPart) ++ (ws ++ (unitCs ++ rest))))) =
      (dictSet stats "bandwidth_mbps" (convertMbps (ds ++ numTail fracPart) unitCs),
        [Ev.progress (convertMbps (ds ++ numTail fracPart) unitCs)]) := by
  have hXhead : ∀ c cs, ws ++ (unitCs ++ rest) = c :: cs →
      Char.isDigit c = false ∧ c ≠ '.' := by
    intro c cs h
    obtain ⟨w, ws', rfl⟩ : ∃ w ws', ws = w :: ws' := by
      cases ws with
      | nil => exact absurd rfl hws_ne
      | cons a b => exact ⟨a, b, rfl⟩
    rw [List.cons_append] at h
    injection h with h1 _
    rw [← h1]
    exact pySpace_not_digit_dot w (hws w (List.mem_cons_self w ws'))
  have hnum0 := matchNumAt_token ds fracPart (ws ++ (unitCs ++ rest))
    hds_ne hds hfs hXhead
  have hnum_ne : ds ++ numTail fracPart ≠ [] := fun h =>
    hds_ne (List.append_eq_nil.mp h).1
  have hrate := matchRateAt_token (ds ++ numTail fracPart) ws unitCs rest
    hnum0 hws_ne hws huhead hunit
  have hfr := findRate_token ctx (ds ++ numTail fracPart) ws unitCs rest
    hctx hnum_ne hrate
  simp only [parseProgressLine,
    show (String.mk (ctx ++ ((ds ++ numTail fracPart) ++ (ws ++ (unitCs ++ rest))))).data =
      ctx ++ ((ds ++ numTail fracPart) ++ (ws ++ (unitCs ++ rest))) from rfl, hfr]

theorem parseProgress_case (stats : Dict)
    (ctx ds ws unitCs rest : List Char) (fracPart : Option (List Char)) (factor : Rat)
    (hctx : ∀ c ∈ ctx, Char.isDigit c = false)
    (hds_ne : ds ≠ []) (hds : ∀ c ∈ ds, Char.isDigit c = true)
    (hfs : ∀ l, fracPart = some l → ∀ c ∈ l, Char.isDigit c = true)
    (hws_ne : ws ≠ []) (hws : ∀ c ∈ ws, isPySpace c = true)
    (huhead : ∀ c cs, unitCs ++ rest = c :: cs → isPySpace c = false)
    (hunit : matchUnitAt (unitCs ++ rest) = some (unitCs, rest))
    (hconv : convertMbps (ds ++ numTail fracPart) unitCs =
      numVal ds fracPart * factor) :
    parseProgressLine stats
        (String.mk (ctx ++ ((ds ++ numTail fracPart) ++ (ws ++ (unitCs ++ rest))))) =
      (dictSet stats "bandwidth_mbps" (numVal ds fracPart * factor),
        [Ev.progress (numVal ds fracPart * factor)]) := by
  rw [parseProgressLine_token stats ctx ds ws unitCs rest fracPart
    hctx hds_ne hds hfs hws_ne hws huhead hunit, hconv]

/-- Claim C2: For every well-formed throughput progress line carrying a
rate token with a recognized unit — optional context of non-digit
characters, a decimal number, whitespace, an optional magnitude prefix
(`K`/`M`/`G`, either case) and `bits/sec`, then anything — the parser
stores and publishes `bandwidth_mbps` equal to the token's numeric
value times 1000 for a `G` prefix, times 1 for a bare unit or an `M`
prefix, and divided by 1000 for a `K` prefix; in particular the line
`" 0.00-1.00 sec 12.5 MBytes 105 Mbits/sec"` yields a progress event
with `bandwidth_mbps = 105`. -/
theorem claim_C2_unit_conversion (stats : Dict) (ctx ds ws rest : List Char)
    (fracPart : Option (List Char)) (p : Option Char) (factor : Rat)
    (hctx : ∀ c ∈ ctx, Char.isDigit c = false)
    (hds_ne : ds ≠ []) (hds : ∀ c ∈ ds, Char.isDigit c = true)
    (hfs : ∀ l, fracPart = some l → ∀ c ∈ l, Char.isDigit c = true)
    (hws_ne : ws ≠ []) (hws : ∀ c ∈ ws, isPySpace c = true)
    (hp : (p, factor) ∈ [(none, (1 : Rat)), (some 'K', 1 / 1000), (some 'k', 1 / 1000),
      (some 'M', 1), (some 'm', 1), (some 'G', 1000), (some 'g', 1000)]) :
    parseProgressLine stats (String.mk (ctx ++ ((ds ++ numTail fracPart) ++
        (ws ++ (unitText p ++ rest))))) =
      (dictSet stats "bandwidth_mbps" (numVal ds fracPart * factor),
        [Ev.progress (numVal ds fracPart * factor)]) ∧
    parseProgressLine initIperfStats " 0.00-1.00 sec 12.5 MBytes 105 Mbits/sec" =
      (dictSet initIperfStats "bandwidth_mbps" 105, [Ev.progress 105]) := by
  have hconc : parseProgressLine initIperfStats
      " 0.00-1.00 sec 12.5 MBytes 105 Mbits/sec" =
      (dictSet initIperfStats "bandwidth_mbps" 105, [Ev.progress 105]) := by
    have hf : findRate (" 0.00-1.00 sec 12.5 MBytes 105 Mbits/sec" : String).data =
        some (['1', '0', '5'], ['M', 'b', 'i', 't', 's', '/', 's', 'e', 'c']) := by
      decide
    simp only [parseProgressLine, hf]
    rw [show convertMbps (['1', '0', '5']) (['M', 'b', 'i', 't', 's', '/', 's', 'e', 'c']) =
      105 from by decide]
  refine ⟨?_, hconc⟩
  have hpf := parseFloat_token ds fracPart hds hfs
  simp only [List.mem_cons, List.not_mem_nil, or_false, Prod.mk.injEq] at hp
  rcases hp with ⟨h1, h2⟩ | ⟨h1, h2⟩ | ⟨h1, h2⟩ | ⟨h1, h2⟩ | ⟨h1, h2⟩ | ⟨h1, h2⟩ |
    ⟨h1, h2⟩ <;> subst h1 <;> subst h2
  · exact parseProgress_case stats ctx ds ws bitsSecPat rest fracPart 1
      hctx hds_ne hds hfs hws_ne hws
      (fun c cs h => by
        simp only [bitsSecPat, List.cons_append] at h
        injection h with h1 _
        subst h1
        decide)
      rfl
      (by
        simp only [convertMbps, unitText,
          show containsSub (("gbits").data) (List.map Char.toLower bitsSecPat) = false
            from by decide,
          show containsSub (("kbits").data) (List.map Char.toLower bitsSecPat) = false
            from by decide, hpf]
        simp)
  · exact parseProgress_case stats ctx ds ws ('K' :: bitsSecPat) rest fracPart (1 / 1000)
      hctx hds_ne hds hfs hws_ne hws
      (fun c cs h => by
        rw [List.cons_append] at h
        injection h with h1 _
        subst h1
        decide)
      rfl
      (by
        simp only [convertMbps, unitText,
          show containsSub (("gbits").data)
            (List.map Char.toLower ('K' :: bitsSecPat)) = false from by decide,
          show containsSub (("kbits").data)
            (List.map Char.toLower ('K' :: bitsSecPat)) = true from by decide, hpf]
        simp
        ring)
  · exact parseProgress_case stats ctx ds ws ('k' :: bitsSecPat) rest fracPart (1 / 1000)
      hctx hds_ne hds hfs hws_ne hws
      (fun c cs h => by
        rw [List.cons_append] at h
        injection h with h1 _
        subst h1
        decide)
      rfl
      (by
        simp only [convertMbps, unitText,
          show containsSub (("gbits").data)
            (List.map Char.toLower ('k' :: bitsSecPat)) = false from by decide,
          show containsSub (("kbits").data)
            (List.map Char.toLower ('k' :: bitsSecPat)) = true from by decide, hpf]
        simp
        ring)
  · exact parseProgress_case stats ctx ds ws ('M' :: bitsSecPat) rest fracPart 1
      hctx hds_ne hds hfs hws_ne hws
      (fun c cs h => by
        rw [List.cons_append] at h
        injection h with h1 _
        subst h1
        decide)
      rfl
      (by
        simp only [convertMbps, unitText,
          show containsSub (("gbits").data)
            (List.map Char.toLower ('M' :: bitsSecPat)) = false from by decide,
          show containsSub (("kbits").data)
            (List.map Char.toLower ('M' :: bitsSecPat)) = false from by decide, hpf]
        simp)
  · exact parseProgress_case stats ctx ds ws ('m' :: bitsSecPat) rest fracPart 1
      hctx hds_ne hds hfs hws_ne hws
      (fun c cs h => by
        rw [List.cons_append] at h
        injection h with h1 _
        subst h1
        decide)
      rfl
      (by
        simp only [convertMbps, unitText,
          show containsSub (("gbits").data)
            (List.map Char.toLower ('m' :: bitsSecPat)) = false from by decide,
          show containsSub (("kbits").data)
            (List.map Char.toLower ('m' :: bitsSecPat)) = false from by decide, hpf]
        simp)
  · exact parseProgress_case stats ctx ds ws ('G' :: bitsSecPat) rest fracPart 1000
      hctx hds_ne hds hfs hws_ne hws
      (fun c cs h => by
        rw [List.cons_append] at h
        injection h with h1 _
        subst h1
        decide)
      rfl
      (by
        simp only [convertMbps, unitText,
          show containsSub (("gbits").data)
            (List.map Char.toLower ('G' :: bitsSecPat)) = true from by decide, hpf]
        simp)
  · exact parseProgress_case stats ctx ds ws ('g' :: bitsSecPat) rest fracPart 1000
      hctx hds_ne hds hfs hws_ne hws
      (fun c cs h => by
        rw [List.cons_append] at h
        injection h with h1 _
        subst h1
        decide)
      rfl
      (by
        simp only [convertMbps, unitText,
          show containsSub (("gbits").data)
            (List.map Char.toLower ('g' :: bitsSecPat)) = true from by decide, hpf]
        simp)

theorem claim_C2_witness :
    parseProgressLine initIperfStats
        (String.mk ([] ++ (((['1', '0', '5']) ++ numTail none) ++
          ([' '] ++ (unitText (some 'M') ++ []))))) =
      (dictSet initIperfStats "bandwidth_mbps" (numVal (['1', '0', '5']) none * 1),
        [Ev.progress (numVal (['1', '0', '5']) none * 1)]) :=
  (claim_C2_unit_conversion initIperfStats [] (['1', '0', '5']) ([' ']) [] none
    (some 'M') 1 (by decide) (by decide) (by decide)
    (fun l h => Option.noConfusion h) (by decide) (by decide) (by decide)).1

end TsnSdk
